import Mathlib

/-!
Verification development for the multi-agent research platform
(`research_platform/agents`): a shallow embedding, in Lean, of the
Consensus Engine (`agents/consensus.py`) and the Agent Orchestrator
(`agents/orchestrator.py`), together with theorems checking the stated
properties of those components.

Modelling conventions:
  - Python floats are modelled as exact rationals (`ℚ`).
  - Python `dict` / `collections.defaultdict` / `collections.Counter`
    values are modelled as association lists with Python insertion-order
    semantics (updating an existing key keeps its position, a new key is
    appended at the end).
  - `sorted(..., key=..., reverse=True)` is a stable descending sort; it
    is modelled by a stable insertion sort, which computes the same list.
  - `numpy.std` is modelled with an exact rational mean/variance and a
    square root truncated to six decimal places (a finite-precision
    model of the floating sqrt); no theorem below depends on the sqrt
    precision.
-/

namespace ResearchPlatform

/-- The `AgentType` enum of `agents/base.py`. -/
inductive AgentType where
  | claude3
  | claude3Sonnet
  | gpt4Turbo
  | gpt4o
  | o1
  | o3
  | qwenQwq
  | deepseekR1
  | gemini2
  | llama370b
  | mixtral8x22b
  | grok2
  | yiLightning
deriving DecidableEq, Repr

/-- The `.value` string of each `AgentType` member. -/
def AgentType.value : AgentType → String
  | .claude3 => "claude-3-opus"
  | .claude3Sonnet => "claude-3-sonnet"
  | .gpt4Turbo => "gpt-4-turbo"
  | .gpt4o => "gpt-4o"
  | .o1 => "o1"
  | .o3 => "o3"
  | .qwenQwq => "qwen-qwq"
  | .deepseekR1 => "deepseek-r1"
  | .gemini2 => "gemini-2.0-flash-thinking-exp"
  | .llama370b => "llama-3-70b"
  | .mixtral8x22b => "mixtral-8x22b"
  | .grok2 => "grok-2"
  | .yiLightning => "yi-lightning"

/-- The `AnalysisType` enum of `agents/base.py`. -/
inductive AnalysisType where
  | what
  | how
  | why
  | general
deriving DecidableEq, Repr

/-- One evidence item: an opaque key-value record (`Dict[str, Any]`). -/
def EvidenceItem : Type := List (String × String)

instance : DecidableEq EvidenceItem := by
  unfold EvidenceItem
  infer_instance

/-- The `AgentResponse` model of `agents/base.py` (one Opinion).
The `processing_time` and `timestamp` fields are carried but never read
by the consensus or orchestration code. -/
structure AgentResponse where
  agent_type : AgentType
  response : String
  reasoning_chain : String
  confidence_score : ℚ
  analysis_type : AnalysisType
  key_claims : List String := []
  evidence : List EvidenceItem := []
  contradictions : List String := []
  recommendations : List String := []
  citations : List String := []
  processing_time : ℚ := 0
deriving DecidableEq

/-- One entry of the `contradictions` list built by
`ConsensusEngine._identify_contradictions`:
`{"statement": ..., "frequency": ..., "severity": ...}`. -/
structure ContradictionRecord where
  statement : String
  frequency : ℕ
  severity : String
deriving DecidableEq

/-- The `ConsensusResult` model of `agents/consensus.py`. -/
structure ConsensusResult where
  consolidated_answer : String
  confidence_score : ℚ
  agreement_level : ℚ
  key_findings : List String := []
  evidence_summary : List EvidenceItem := []
  contradictions : List ContradictionRecord := []
  agent_votes : List (String × ℚ) := []
  minority_opinions : List String := []
  recommendations : List String := []
  reasoning_synthesis : String := ""
deriving DecidableEq

/-- Constructor parameters of `ConsensusEngine.__init__` with the source
defaults `min_confidence=0.6`, `consensus_threshold=0.7`. -/
structure ConsensusEngine where
  min_confidence : ℚ := 6 / 10
  consensus_threshold : ℚ := 7 / 10
deriving DecidableEq

/-! ### Python container semantics -/

/-- `defaultdict` accumulation `d[k] += v`: an existing key keeps its
position and its value grows; a missing key is appended with value `v`
(for `defaultdict(float)` the default is `0`). -/
def dictAdd {β : Type} [Add β] : List (String × β) → String → β → List (String × β)
  | [], k, v => [(k, v)]
  | (k₀, v₀) :: d, k, v =>
      if k₀ = k then (k₀, v₀ + v) :: d else (k₀, v₀) :: dictAdd d k v

/-- Plain `dict` assignment `d[k] = v`: an existing key keeps its
position and its value is replaced; a missing key is appended. -/
def dictSet {β : Type} : List (String × β) → String → β → List (String × β)
  | [], k, v => [(k, v)]
  | (k₀, v₀) :: d, k, v =>
      if k₀ = k then (k₀, v) :: d else (k₀, v₀) :: dictSet d k v

/-- `if k not in d: d[k] = v` (first writer wins). -/
def setIfAbsent : List (String × String) → String → String → List (String × String)
  | [], k, v => [(k, v)]
  | (k₀, v₀) :: d, k, v =>
      if k₀ = k then (k₀, v₀) :: d else (k₀, v₀) :: setIfAbsent d k v

/-- Dictionary lookup with an explicit default. -/
def dictGetD {β : Type} : List (String × β) → String → β → β
  | [], _, dflt => dflt
  | (k₀, v₀) :: d, k, dflt => if k₀ = k then v₀ else dictGetD d k dflt

/-- Stable insertion (descending by `f`): the inserted element goes in
front of the first strictly smaller key, behind any equal key that was
already placed from earlier input positions. -/
def insertDesc {α : Type} {β : Type} [LinearOrder β] (f : α → β) (x : α) :
    List α → List α
  | [] => [x]
  | y :: ys => if f y ≤ f x then x :: y :: ys else y :: insertDesc f x ys

/-- Stable descending sort: the model of Python
`sorted(l, key=f, reverse=True)` (equal keys keep input order). -/
def sortByDesc {α : Type} {β : Type} [LinearOrder β] (f : α → β) :
    List α → List α
  | [] => []
  | x :: xs => insertDesc f x (sortByDesc f xs)

/-! ### Numeric helpers -/

/-- Python `round(x, 3)` modelled as rounding to the nearest multiple of
`1/1000` (half away from zero ties are a float subtlety no theorem below
touches). -/
def round3 (x : ℚ) : ℚ := (round (x * 1000) : ℤ) / 1000

/-- `numpy.mean` on a list of floats. -/
def npMean (xs : List ℚ) : ℚ := xs.sum / xs.length

/-- `numpy.std` (population standard deviation), with the square root
evaluated to six decimal places; see the module docstring. -/
def npStd (xs : List ℚ) : ℚ :=
  let m := npMean xs
  let v : ℚ := (xs.map (fun x => (x - m) ^ 2)).sum / xs.length
  (Nat.sqrt (Int.toNat ⌊v * (10 ^ 12 : ℚ)⌋) : ℚ) / 10 ^ 6

/-- Python `max` on a nonempty list of floats (`0` as a junk value on
`[]`, which the source never reaches). -/
def listMax : List ℚ → ℚ
  | [] => 0
  | x :: xs => xs.foldl max x

/-- Python `s.lower()`, character by character (the fixtures are ASCII,
where Python lowercasing agrees with `Char.toLower`). -/
def pyLower (s : String) : String := ⟨s.data.map Char.toLower⟩

/-- Python `s.strip()`: drop leading and trailing whitespace. -/
def pyStrip (s : String) : String :=
  ⟨((s.data.dropWhile Char.isWhitespace).reverse.dropWhile Char.isWhitespace).reverse⟩

/-- Python `s[:n]`: the first `n` characters. -/
def pyTake (s : String) (n : ℕ) : String := ⟨s.data.take n⟩

/-- Python `claim.lower().strip()`. -/
def normClaim (s : String) : String := pyStrip (pyLower s)

namespace ConsensusEngine

/-- Body of the loop in `ConsensusEngine._calculate_agent_weights`
(lines 77-84): confidence plus evidence and claim bonuses, capped at 1. -/
def rawWeight (r : AgentResponse) : ℚ :=
  let base_weight := r.confidence_score
  let evidence_bonus := min ((r.evidence.length : ℚ) * (5 / 100)) (2 / 10)
  let claims_bonus := min ((r.key_claims.length : ℚ) * (3 / 100)) (15 / 100)
  min (base_weight + evidence_bonus + claims_bonus) 1

/-- `ConsensusEngine._calculate_agent_weights`: raw weights, then
normalization by the total when the total is positive. -/
def calculateAgentWeights (responses : List AgentResponse) : List ℚ :=
  let weights := responses.map rawWeight
  let total := weights.sum
  if 0 < total then weights.map (fun w => w / total) else weights

/-- The `all_claims` list of `_consolidate_findings` (and, with
`recommendations`, of `_consolidate_recommendations`): each normalized
string paired with its opinion weight, once per occurrence. -/
def weightedStrings (items : AgentResponse → List String)
    (responses : List AgentResponse) (weights : List ℚ) :
    List (String × ℚ) :=
  (responses.zip weights).flatMap
    (fun p => (items p.1).map (fun c => (normClaim c, p.2)))

/-- The `claim_scores` defaultdict of `_consolidate_findings`. -/
def scoresOf (pairs : List (String × ℚ)) : List (String × ℚ) :=
  pairs.foldl (fun d p => dictAdd d p.1 p.2) []

/-- The `claim_originals` dict of `_consolidate_findings`: note that the
source stores the already-normalized string as the value
(`claim_originals[claim] = claim` after `claim = claim.lower().strip()`). -/
def originalsOf (pairs : List (String × ℚ)) : List (String × String) :=
  pairs.foldl (fun d p => setIfAbsent d p.1 p.1) []

/-- `ConsensusEngine._consolidate_findings` (lines 92-117). -/
def consolidateFindings (e : ConsensusEngine)
    (responses : List AgentResponse) (weights : List ℚ) : List String :=
  let all_claims := weightedStrings AgentResponse.key_claims responses weights
  let claim_scores := scoresOf all_claims
  let claim_originals := originalsOf all_claims
  let sorted_claims := sortByDesc Prod.snd claim_scores
  (sorted_claims.take 15).filterMap
    (fun p =>
      if e.consensus_threshold * listMax weights ≤ p.2 then
        some (dictGetD claim_originals p.1 "")
      else none)

/-- `ConsensusEngine._identify_contradictions` (lines 119-139). -/
def identifyContradictions (responses : List AgentResponse) :
    List ContradictionRecord :=
  let all_contradictions := responses.flatMap AgentResponse.contradictions
  let counter :=
    (all_contradictions.map pyLower).foldl
      (fun d c => dictAdd d c (1 : ℕ)) []
  ((sortByDesc Prod.snd counter).take 10).filterMap
    (fun p =>
      if 2 ≤ p.2 then
        some { statement := p.1
               frequency := p.2
               severity :=
                 if (responses.length : ℚ) * (1 / 2) ≤ (p.2 : ℚ) then "high"
                 else "medium" }
      else none)

/-- Numbered excerpt lines of `_synthesize_answer`:
`f"{i}. {excerpt}...\n\n"` with `excerpt = text[:500].strip()`. -/
def answerLines : ℕ → List String → String
  | _, [] => ""
  | i, t :: ts =>
      toString i ++ ". " ++ pyStrip (pyTake t 500) ++ "...\n\n" ++ answerLines (i + 1) ts

/-- `ConsensusEngine._synthesize_answer` (lines 141-162). -/
def synthesizeAnswer (e : ConsensusEngine)
    (responses : List AgentResponse) (weights : List ℚ) : String :=
  let weighted_responses :=
    (responses.zip weights).filterMap
      (fun p => if e.consensus_threshold ≤ p.2 then some p.1.response else none)
  let weighted_responses :=
    if weighted_responses.isEmpty then (responses.take 3).map AgentResponse.response
    else weighted_responses
  "Based on multi-agent analysis:\n\n" ++ answerLines 1 (weighted_responses.take 5)

/-- `ConsensusEngine._consolidate_recommendations` (lines 164-186). -/
def consolidateRecommendations
    (responses : List AgentResponse) (weights : List ℚ) : List String :=
  let all_recs := weightedStrings AgentResponse.recommendations responses weights
  let rec_scores := scoresOf all_recs
  let rec_originals := originalsOf all_recs
  let sorted_recs := sortByDesc Prod.snd rec_scores
  (sorted_recs.take 10).map (fun p => dictGetD rec_originals p.1 "")

/-- `ConsensusEngine._calculate_overall_confidence` (lines 188-196). -/
def calculateOverallConfidence
    (responses : List AgentResponse) (weights : List ℚ) : ℚ :=
  round3 (((responses.zip weights).map
    (fun p => p.1.confidence_score * p.2)).sum)

/-- `ConsensusEngine._calculate_agreement_level` (lines 198-206). -/
def calculateAgreementLevel (responses : List AgentResponse) : ℚ :=
  if responses.length < 2 then 1
  else
    let confidences := responses.map AgentResponse.confidence_score
    let std_dev := npStd confidences
    round3 (1 - min std_dev 1)

/-- Inner step of `_extract_minority_opinions`: an under-weighted
opinion contributes up to two claims not already collected. -/
def minorityStep (avg_weight : ℚ) :
    List String → List (AgentResponse × ℚ) → List String
  | minority, [] => minority
  | minority, (r, w) :: rest =>
      if w < avg_weight * (1 / 2) then
        minorityStep avg_weight
          (minority ++ (r.key_claims.filter (fun c => c ∉ minority)).take 2) rest
      else minorityStep avg_weight minority rest

/-- `ConsensusEngine._extract_minority_opinions` (lines 208-222). -/
def extractMinorityOpinions
    (responses : List AgentResponse) (weights : List ℚ) : List String :=
  let avg_weight := npMean weights
  (minorityStep avg_weight [] (responses.zip weights)).take 5

/-- Numbered excerpt lines of `_synthesize_reasoning`:
`f"Agent {i}: {excerpt}...\n\n"` with `excerpt = chain[:300].strip()`. -/
def reasoningLines : ℕ → List String → String
  | _, [] => ""
  | i, t :: ts =>
      "Agent " ++ toString i ++ ": " ++ pyStrip (pyTake t 300) ++ "...\n\n"
        ++ reasoningLines (i + 1) ts

/-- `ConsensusEngine._synthesize_reasoning` (lines 224-235). -/
def synthesizeReasoning (responses : List AgentResponse) : String :=
  let reasoning_chains :=
    responses.filterMap
      (fun r => if r.reasoning_chain ≠ "" then some r.reasoning_chain else none)
  if reasoning_chains.isEmpty then "No detailed reasoning available."
  else
    "Synthesized reasoning from agents:\n\n"
      ++ reasoningLines 1 (reasoning_chains.take 3)

/-- The `agent_votes` dict comprehension of `reach_consensus` (line 69):
keys are `str(r.agent_type.value)`, later duplicates overwrite earlier
values. -/
def agentVotes (responses : List AgentResponse) (weights : List ℚ) :
    List (String × ℚ) :=
  (responses.zip weights).foldl
    (fun d p => dictSet d p.1.agent_type.value p.2) []

/-- The surviving opinion set of `reach_consensus` (lines 39-43): the
opinions meeting `min_confidence`, or the full set when none do. -/
def surviving (e : ConsensusEngine) (responses : List AgentResponse) :
    List AgentResponse :=
  let filtered_responses :=
    responses.filter (fun r => e.min_confidence ≤ r.confidence_score)
  if filtered_responses.isEmpty then responses else filtered_responses

/-- `ConsensusEngine.reach_consensus` (lines 27-73). The
`analysis_type` argument is carried to mirror the source signature; the
source body never reads it. -/
def reachConsensus (e : ConsensusEngine)
    (responses : List AgentResponse) (analysisType : AnalysisType) :
    ConsensusResult :=
  if responses.isEmpty then
    { consolidated_answer := "No responses available"
      confidence_score := 0
      agreement_level := 0 }
  else
    let filtered_responses := surviving e responses
    let agent_weights := calculateAgentWeights filtered_responses
    { consolidated_answer := synthesizeAnswer e filtered_responses agent_weights
      confidence_score := calculateOverallConfidence filtered_responses agent_weights
      agreement_level := calculateAgreementLevel filtered_responses
      key_findings := consolidateFindings e filtered_responses agent_weights
      contradictions := identifyContradictions filtered_responses
      agent_votes := agentVotes filtered_responses agent_weights
      minority_opinions := extractMinorityOpinions filtered_responses agent_weights
      recommendations := consolidateRecommendations filtered_responses agent_weights
      reasoning_synthesis := synthesizeReasoning filtered_responses }

end ConsensusEngine

/-! ### Agent Orchestrator (`agents/orchestrator.py`)

The fan-out of `AgentOrchestrator._run_agents` is embedded by abstracting
each pool entry into its observable behaviour for one call: it either
completes after some duration with a value (possibly `None`), or raises.
`asyncio.wait_for` turns a completion slower than the timeout into an
`asyncio.TimeoutError`; `_run_agent_with_timeout` re-raises every
exception, and `asyncio.gather(..., return_exceptions=True)` returns the
per-task outcomes in task-submission (pool) order with exceptions
captured as values and without cancelling sibling tasks. -/

/-- Observable behaviour of one agent for one orchestrator call:
completion after a given duration (in seconds) with the value the
coroutine returns, or an exception with its message. -/
inductive AgentBehavior where
  | completes : ℚ → Option AgentResponse → AgentBehavior
  | raises : String → AgentBehavior
deriving DecidableEq

/-- One slot of the `asyncio.gather(..., return_exceptions=True)` result:
a returned value (possibly `None`) or a captured exception message. -/
inductive RunResult where
  | value : Option AgentResponse → RunResult
  | exn : String → RunResult
deriving DecidableEq

namespace AgentOrchestrator

/-- `AgentOrchestrator._run_agent_with_timeout` (lines 88-106):
`asyncio.wait_for` raises `TimeoutError` when the call outlasts the
timeout, and both `except` clauses re-raise, so `gather` sees either the
returned value or the exception. -/
def runAgentWithTimeout (timeout : ℚ) : AgentBehavior → RunResult
  | .completes duration v => if timeout < duration then .exn "TimeoutError" else .value v
  | .raises e => .exn e

/-- The `results` list of `_run_agents` line 77: one outcome per pool
entry, in task-submission order. -/
def gatherResults (timeout : ℚ) (agents : List AgentBehavior) : List RunResult :=
  agents.map (runAgentWithTimeout timeout)

/-- The `successful_responses` accumulation of `_run_agents` lines 79-84:
exceptions are skipped (logged), `None` results are skipped, everything
else is kept in order. -/
def collectResponses : List RunResult → List AgentResponse
  | [] => []
  | .value (some r) :: rest => r :: collectResponses rest
  | .value none :: rest => collectResponses rest
  | .exn _ :: rest => collectResponses rest

/-- The per-failure `logger.error` records of `_run_agents` lines 81-82:
one `(pool index, message)` entry per captured exception. -/
def collectFailures : ℕ → List RunResult → List (ℕ × String)
  | _, [] => []
  | i, .exn e :: rest => (i, e) :: collectFailures (i + 1) rest
  | i, .value _ :: rest => collectFailures (i + 1) rest

/-- `AgentOrchestrator._run_agents` (lines 63-86): the surviving
opinions in pool order, paired with the failure diagnostics. -/
def runAgents (timeout : ℚ) (agents : List AgentBehavior) :
    List AgentResponse × List (ℕ × String) :=
  let results := gatherResults timeout agents
  (collectResponses results, collectFailures 0 results)

/-- The exception message `gather` captures for a failing behaviour. -/
def failureMessage : AgentBehavior → String
  | .completes _ _ => "TimeoutError"
  | .raises e => e

end AgentOrchestrator

/-- The value an `AgentBehavior` would deliver absent timeout or
exception (used to state which opinions a fan-out returns). -/
def behaviorResponse : AgentBehavior → Option AgentResponse
  | .completes _ v => v
  | .raises _ => none

/-! ### Concrete fixtures

Opinions used as concrete inputs by the theorems below; the first two
are the two-opinion scenario of the specification (confidences 0.85 and
0.80, claims "Finding A"/"Finding B" and "Finding A"/"Finding C",
`min_confidence=0.5`, `agreement_threshold=0.6`). -/

def opinionA : AgentResponse :=
  { agent_type := .claude3
    response := "Finding A is significant"
    reasoning_chain := "Analysis shows..."
    confidence_score := 85 / 100
    analysis_type := .what
    key_claims := ["Finding A", "Finding B"]
    recommendations := ["Recommendation 1"] }

def opinionB : AgentResponse :=
  { agent_type := .gpt4o
    response := "Finding A is important"
    reasoning_chain := "Data indicates..."
    confidence_score := 80 / 100
    analysis_type := .what
    key_claims := ["Finding A", "Finding C"]
    recommendations := ["Recommendation 1", "Recommendation 2"] }

/-- The engine configuration of the specification scenario. -/
def scenarioEngine : ConsensusEngine :=
  { min_confidence := 1 / 2, consensus_threshold := 6 / 10 }

/-- An opinion with zero confidence and no evidence or claims: its raw
weight is zero. -/
def opinionZero : AgentResponse :=
  { agent_type := .claude3
    response := "x"
    reasoning_chain := ""
    confidence_score := 0
    analysis_type := .general }

/-- An opinion listing the same claim twice. -/
def opinionDup : AgentResponse :=
  { agent_type := .claude3
    response := "x"
    reasoning_chain := ""
    confidence_score := 1
    analysis_type := .general
    key_claims := ["a", "a"] }

/-- Two distinct opinions produced by agents of the same type
(`agent_factory.create_agent_pool` builds such pools whenever two API
keys for the same provider are configured). -/
def opinionSameType1 : AgentResponse :=
  { agent_type := .gpt4o
    response := "A"
    reasoning_chain := ""
    confidence_score := 4 / 5
    analysis_type := .general }

def opinionSameType2 : AgentResponse :=
  { agent_type := .gpt4o
    response := "B"
    reasoning_chain := ""
    confidence_score := 4 / 5
    analysis_type := .general }

/-- Fixture opinions for the orchestrator theorems. -/
def opinionOrch1 : AgentResponse :=
  { agent_type := .claude3
    response := "r1"
    reasoning_chain := "c1"
    confidence_score := 9 / 10
    analysis_type := .what }

def opinionOrch2 : AgentResponse :=
  { agent_type := .gemini2
    response := "r2"
    reasoning_chain := "c2"
    confidence_score := 8 / 10
    analysis_type := .what }

/-! ### Lemmas on the weighting step -/

namespace ConsensusEngine

theorem rawWeight_nonneg {r : AgentResponse} (h : 0 ≤ r.confidence_score) :
    0 ≤ rawWeight r := by
  unfold rawWeight
  have he : (0 : ℚ) ≤ min ((r.evidence.length : ℚ) * (5 / 100)) (2 / 10) := by
    positivity
  have hc : (0 : ℚ) ≤ min ((r.key_claims.length : ℚ) * (3 / 100)) (15 / 100) := by
    positivity
  have : (0 : ℚ) ≤ r.confidence_score
      + min ((r.evidence.length : ℚ) * (5 / 100)) (2 / 10)
      + min ((r.key_claims.length : ℚ) * (3 / 100)) (15 / 100) := by linarith
  exact le_min this (by norm_num)

theorem sum_map_div (l : List ℚ) (t : ℚ) :
    (l.map (fun w => w / t)).sum = l.sum / t := by
  induction l with
  | nil => simp
  | cons x xs ih => simp [ih, add_div]

theorem rawTotal_pos {rs : List AgentResponse}
    (h0 : ∀ r ∈ rs, 0 ≤ r.confidence_score)
    (hnz : ∃ r ∈ rs, rawWeight r ≠ 0) :
    0 < (rs.map rawWeight).sum := by
  obtain ⟨r, hr, hne⟩ := hnz
  have hpos : 0 < rawWeight r := lt_of_le_of_ne (rawWeight_nonneg (h0 r hr)) (Ne.symm hne)
  have hmem : rawWeight r ∈ rs.map rawWeight := List.mem_map_of_mem _ hr
  have hle : rawWeight r ≤ (rs.map rawWeight).sum := by
    refine List.single_le_sum ?_ _ hmem
    intro w hw
    obtain ⟨r', hr', rfl⟩ := List.mem_map.mp hw
    exact rawWeight_nonneg (h0 r' hr')
  linarith

/-- When some raw weight is nonzero, the normalized weights sum to 1
(shared by several theorems below). -/
theorem weights_sum_one {rs : List AgentResponse}
    (h0 : ∀ r ∈ rs, 0 ≤ r.confidence_score)
    (hnz : ∃ r ∈ rs, rawWeight r ≠ 0) :
    (calculateAgentWeights rs).sum = 1 := by
  have hpos := rawTotal_pos h0 hnz
  unfold calculateAgentWeights
  simp only [if_pos hpos]
  rw [sum_map_div, div_self (ne_of_gt hpos)]

theorem calculateAgentWeights_length (rs : List AgentResponse) :
    (calculateAgentWeights rs).length = rs.length := by
  unfold calculateAgentWeights
  by_cases h : 0 < (rs.map rawWeight).sum
  · simp [h]
  · simp [h]

theorem surviving_subset {e : ConsensusEngine} {rs : List AgentResponse}
    {r : AgentResponse} (h : r ∈ surviving e rs) : r ∈ rs := by
  unfold surviving at h
  by_cases hf :
      (rs.filter (fun r => decide (e.min_confidence ≤ r.confidence_score))).isEmpty
  · simpa [hf] using h
  · simp only [hf, if_false, Bool.false_eq_true] at h
    exact List.mem_of_mem_filter h

end ConsensusEngine

/-! ### Stability of the descending sort -/

theorem insertDesc_all_eq {α : Type} (f : α → ℚ) (c : ℚ) (x : α) (xs : List α)
    (hx : f x = c) (hxs : ∀ y ∈ xs, f y = c) : insertDesc f x xs = x :: xs := by
  cases xs with
  | nil => rfl
  | cons y ys =>
      unfold insertDesc
      rw [if_pos]
      rw [hx, hxs y (by simp)]

theorem sortByDesc_all_eq {α : Type} (f : α → ℚ) (c : ℚ) (xs : List α)
    (h : ∀ y ∈ xs, f y = c) : sortByDesc f xs = xs := by
  induction xs with
  | nil => rfl
  | cons x t ih =>
      unfold sortByDesc
      rw [ih (fun y hy => h y (by simp [hy]))]
      exact insertDesc_all_eq f c x t (h x (by simp)) (fun y hy => h y (by simp [hy]))

/-! ### Accumulated claim scores -/

namespace ConsensusEngine

theorem dictGetD_dictAdd (d : List (String × ℚ)) (k c : String) (v : ℚ) :
    dictGetD (dictAdd d k v) c 0
      = dictGetD d c 0 + (if k = c then v else 0) := by
  induction d with
  | nil =>
      by_cases h : k = c <;> simp [dictAdd, dictGetD, h]
  | cons p d ih =>
      obtain ⟨k₀, v₀⟩ := p
      by_cases h1 : k₀ = k
      · subst h1
        by_cases h2 : k₀ = c <;> simp [dictAdd, dictGetD, h2]
      · by_cases h2 : k₀ = c
        · subst h2
          have : ¬k = k₀ := fun h => h1 h.symm
          simp [dictAdd, dictGetD, h1, this]
        · simp [dictAdd, dictGetD, h1, h2, ih]

theorem dictGetD_scores_foldl (ps : List (String × ℚ)) (d : List (String × ℚ))
    (c : String) :
    dictGetD (ps.foldl (fun d p => dictAdd d p.1 p.2) d) c 0
      = dictGetD d c 0 + (ps.map (fun p => if p.1 = c then p.2 else 0)).sum := by
  induction ps generalizing d with
  | nil => simp
  | cons p ps ih =>
      simp only [List.foldl_cons, ih, dictGetD_dictAdd, List.map_cons, List.sum_cons]
      ring

theorem sum_if_eq_count (c : String) (w : ℚ) (cs : List String) :
    (cs.map (fun cl => if normClaim cl = c then w else 0)).sum
      = w * (((cs.map normClaim).count c : ℕ) : ℚ) := by
  induction cs with
  | nil => simp
  | cons cl cs ih =>
      by_cases h : normClaim cl = c
      · subst h
        simp [List.count_cons, ih]
        ring
      · have h' : ¬c = normClaim cl := fun hc => h hc.symm
        simp [List.count_cons, h, h', ih]

end ConsensusEngine

/-! ### The agent-votes dictionary -/

theorem dictSet_fresh {β : Type} (d : List (String × β)) (k : String) (v : β)
    (h : k ∉ d.map Prod.fst) : dictSet d k v = d ++ [(k, v)] := by
  induction d with
  | nil => rfl
  | cons p d ih =>
      obtain ⟨k₀, v₀⟩ := p
      simp only [List.map_cons, List.mem_cons] at h
      push_neg at h
      unfold dictSet
      rw [if_neg (fun hk => h.1 hk.symm), ih h.2]
      rfl

theorem foldl_dictSet_fresh {α β : Type} (key : α → String) (val : α → β)
    (ps : List α) (acc : List (String × β))
    (hnd : (ps.map key).Nodup)
    (hdisj : ∀ k ∈ ps.map key, k ∉ acc.map Prod.fst) :
    ps.foldl (fun d p => dictSet d (key p) (val p)) acc
      = acc ++ ps.map (fun p => (key p, val p)) := by
  induction ps generalizing acc with
  | nil => simp
  | cons p ps ih =>
      simp only [List.map_cons, List.nodup_cons] at hnd
      simp only [List.foldl_cons]
      rw [dictSet_fresh acc (key p) (val p) (hdisj (key p) (by simp))]
      rw [ih (acc ++ [(key p, val p)]) hnd.2 ?_]
      · simp
      · intro k' hk'
        have h1 : k' ∉ acc.map Prod.fst := hdisj k' (by simp [hk'])
        have h2 : k' ≠ key p := fun he => hnd.1 (he ▸ hk')
        simp [h1, h2]

namespace ConsensusEngine

theorem agentVotes_eq_zip (rs : List AgentResponse) (ws : List ℚ)
    (hlen : rs.length ≤ ws.length)
    (hnd : (rs.map (fun r => r.agent_type.value)).Nodup) :
    agentVotes rs ws = (rs.map (fun r => r.agent_type.value)).zip ws := by
  have hkeys : (rs.zip ws).map (fun p => p.1.agent_type.value)
      = rs.map (fun r => r.agent_type.value) := by
    have hfst := List.map_fst_zip rs ws hlen
    calc (rs.zip ws).map (fun p => p.1.agent_type.value)
        = ((rs.zip ws).map Prod.fst).map (fun r => r.agent_type.value) := by
          rw [List.map_map]
          rfl
      _ = rs.map (fun r => r.agent_type.value) := by rw [hfst]
  have h := foldl_dictSet_fresh (fun p : AgentResponse × ℚ => p.1.agent_type.value)
    Prod.snd (rs.zip ws) [] (by rw [hkeys]; exact hnd) (by simp)
  have hrest : ([] : List (String × ℚ)) ++ (rs.zip ws).map
        (fun p => (p.1.agent_type.value, p.2))
      = (rs.map (fun r => r.agent_type.value)).zip ws := by
    simp only [List.nil_append]
    rw [List.zip_map_left]
    rfl
  exact h.trans hrest

end ConsensusEngine

/-! ### Orchestrator fan-out lemmas -/

namespace AgentOrchestrator

theorem gatherResults_cons (timeout : ℚ) (x : AgentBehavior)
    (rest : List AgentBehavior) :
    gatherResults timeout (x :: rest)
      = runAgentWithTimeout timeout x :: gatherResults timeout rest := rfl

theorem collectResponses_append (a b : List RunResult) :
    collectResponses (a ++ b) = collectResponses a ++ collectResponses b := by
  induction a with
  | nil => rfl
  | cons x rest ih =>
      cases x with
      | value v => cases v <;> simp [collectResponses, ih]
      | exn e => simp [collectResponses, ih]

theorem collectFailures_append (a b : List RunResult) (i : ℕ) :
    collectFailures i (a ++ b)
      = collectFailures i a ++ collectFailures (i + a.length) b := by
  induction a generalizing i with
  | nil => simp [collectFailures]
  | cons x rest ih =>
      cases x with
      | value v =>
          show collectFailures (i + 1) (rest ++ b)
              = collectFailures (i + 1) rest
                ++ collectFailures (i + (RunResult.value v :: rest).length) b
          rw [ih (i + 1)]
          have hidx : i + 1 + rest.length = i + (RunResult.value v :: rest).length := by
            simp only [List.length_cons]
            omega
          rw [hidx]
      | exn e =>
          show ((i, e) :: collectFailures (i + 1) (rest ++ b))
              = ((i, e) :: collectFailures (i + 1) rest)
                ++ collectFailures (i + (RunResult.exn e :: rest).length) b
          rw [List.cons_append, ih (i + 1)]
          have hidx : i + 1 + rest.length = i + (RunResult.exn e :: rest).length := by
            simp only [List.length_cons]
            omega
          rw [hidx]

theorem gather_all_success (timeout : ℚ) (l : List AgentBehavior)
    (h : ∀ x ∈ l, ∃ d r, x = AgentBehavior.completes d (some r) ∧ d ≤ timeout) :
    collectResponses (gatherResults timeout l) = l.filterMap behaviorResponse
      ∧ (l.filterMap behaviorResponse).length = l.length
      ∧ ∀ i, collectFailures i (gatherResults timeout l) = [] := by
  induction l with
  | nil => exact ⟨rfl, rfl, fun _ => rfl⟩
  | cons x rest ih =>
      obtain ⟨d, r, rfl, hd⟩ := h x (List.mem_cons_self x rest)
      obtain ⟨ih1, ih2, ih3⟩ := ih (fun y hy => h y (List.mem_cons_of_mem _ hy))
      have hrun : runAgentWithTimeout timeout (AgentBehavior.completes d (some r))
          = RunResult.value (some r) := by
        simp [runAgentWithTimeout, not_lt.mpr hd]
      refine ⟨?_, ?_, ?_⟩
      · simp [gatherResults_cons, hrun, collectResponses, behaviorResponse,
          List.filterMap_cons, ih1]
      · simp [behaviorResponse, List.filterMap_cons, ih2]
      · intro i
        simp [gatherResults_cons, hrun, collectFailures, ih3]

end AgentOrchestrator

/-! ### Claim theorems -/

section Claims

open ConsensusEngine AgentOrchestrator

/-- C1: for every Opinion set in which at least one opinion has nonzero
raw weight, the normalized weights computed by the weighting step sum to
1; and when every raw weight is zero, all weights are left at zero (no
division by zero occurs). The nonnegative-confidence hypothesis is the
`AgentResponse` field validation `confidence_score: float = Field(ge=0.0)`. -/
theorem consensus_weight_normalization (rs : List AgentResponse)
    (h0 : ∀ r ∈ rs, 0 ≤ r.confidence_score) :
    ((∃ r ∈ rs, rawWeight r ≠ 0) → (calculateAgentWeights rs).sum = 1) ∧
    ((∀ r ∈ rs, rawWeight r = 0) → ∀ w ∈ calculateAgentWeights rs, w = 0) := by
  constructor
  · intro hnz
    exact weights_sum_one h0 hnz
  · intro hz w hw
    have hall : ∀ w ∈ rs.map rawWeight, w = 0 := by
      intro w hw'
      obtain ⟨r, hr, rfl⟩ := List.mem_map.mp hw'
      exact hz r hr
    have htot : (rs.map rawWeight).sum = 0 := List.sum_eq_zero hall
    unfold calculateAgentWeights at hw
    simp only [htot, lt_self_iff_false, if_false] at hw
    exact hall w hw

theorem consensus_weight_normalization_witness :
    (∀ r ∈ [opinionA, opinionB], 0 ≤ r.confidence_score) ∧
      (calculateAgentWeights [opinionA, opinionB]).sum = 1 := by
  have h0 : ∀ r ∈ [opinionA, opinionB], 0 ≤ r.confidence_score := by
    intro r hr
    rcases List.mem_cons.mp hr with rfl | hr
    · norm_num [opinionA]
    rcases List.mem_cons.mp hr with rfl | hr
    · norm_num [opinionB]
    · cases hr
  refine ⟨h0, (consensus_weight_normalization [opinionA, opinionB] h0).1 ?_⟩
  exact ⟨opinionA, by simp, by norm_num [rawWeight, opinionA, min_def]⟩

/-- C2: the empty Opinion sequence yields (with no error: the embedding
is a total function over every Opinion sequence) the degenerate result
with confidence 0, agreement 0, the answer "No responses available" and
every list field empty. -/
theorem reach_consensus_empty_degenerate (e : ConsensusEngine) (t : AnalysisType) :
    reachConsensus e [] t =
      { consolidated_answer := "No responses available"
        confidence_score := 0
        agreement_level := 0
        key_findings := []
        evidence_summary := []
        contradictions := []
        agent_votes := []
        minority_opinions := []
        recommendations := []
        reasoning_synthesis := "" } := rfl

/-- C5 counterexample: a surviving set of exactly one opinion whose raw
weight is zero (confidence 0, no evidence, no claims) keeps weight 0,
not 1: the normalization is skipped because the total is not positive. -/
theorem zero_weight_singleton_not_one :
    calculateAgentWeights [opinionZero] = [0] ∧
      calculateAgentWeights [opinionZero] ≠ [1] := by
  refine ⟨?_, ?_⟩ <;>
    norm_num [calculateAgentWeights, rawWeight, opinionZero, min_def]

/-- C5 amended: a surviving set of exactly one opinion yields agreement
exactly 1 for EVERY single opinion (the zero-raw-weight one included);
the weight of the single opinion is exactly 1 whenever its raw weight
is nonzero (given the nonnegative-confidence bound), and when its raw
weight is zero - confidence 0 and neither evidence nor claims - the
weight stays 0, not 1. -/
theorem singleton_agreement_and_weight (r : AgentResponse) :
    calculateAgreementLevel [r] = 1
      ∧ (0 ≤ r.confidence_score → rawWeight r ≠ 0 →
          calculateAgentWeights [r] = [1])
      ∧ (rawWeight r = 0 → calculateAgentWeights [r] = [0]) := by
  refine ⟨by simp [calculateAgreementLevel], ?_, ?_⟩
  · intro h0 hnz
    have hpos : 0 < rawWeight r := lt_of_le_of_ne (rawWeight_nonneg h0) (Ne.symm hnz)
    unfold calculateAgentWeights
    simp [hpos, div_self (ne_of_gt hpos)]
  · intro hz
    unfold calculateAgentWeights
    simp [hz]

theorem singleton_agreement_and_weight_witness :
    (calculateAgreementLevel [opinionA] = 1
        ∧ calculateAgentWeights [opinionA] = [1])
      ∧ (calculateAgreementLevel [opinionZero] = 1
        ∧ calculateAgentWeights [opinionZero] = [0]) :=
  ⟨⟨(singleton_agreement_and_weight opinionA).1,
    (singleton_agreement_and_weight opinionA).2.1 (by norm_num [opinionA])
      (by norm_num [rawWeight, opinionA, min_def])⟩,
    ⟨(singleton_agreement_and_weight opinionZero).1,
      (singleton_agreement_and_weight opinionZero).2.2
        (by norm_num [rawWeight, opinionZero, min_def])⟩⟩

/-- C9: the Consensus Engine never reads the analysis-type argument:
reducing the same Opinion sequence under any two analysis types yields
equal Consensus Results. -/
theorem consensus_ignores_analysis_type (e : ConsensusEngine)
    (rs : List AgentResponse) (t₁ t₂ : AnalysisType) :
    reachConsensus e rs t₁ = reachConsensus e rs t₂ := rfl

/-- C10: the opinions returned by one orchestrator fan-out are exactly
the subsequence, in pool (task-submission) order, of the per-agent
gather results that are neither captured exceptions nor `None`. -/
theorem orchestrator_opinions_filter (timeout : ℚ) (pool : List AgentBehavior) :
    (runAgents timeout pool).1 =
      (gatherResults timeout pool).filterMap
        (fun res => match res with
          | .value (some r) => some r
          | .value none => none
          | .exn _ => none) := by
  show collectResponses (gatherResults timeout pool) = _
  generalize gatherResults timeout pool = l
  induction l with
  | nil => rfl
  | cons x rest ih =>
      cases x with
      | value v => cases v <;> simp [collectResponses, ih]
      | exn e => simp [collectResponses, ih]

/-- C4 counterexample: an opinion with weight 1 whose claims list
contains the claim "a" twice accumulates score 2 for the normalized
claim "a" - its weight is added once per occurrence, not once per
distinct claim. -/
theorem duplicate_claim_double_count :
    dictGetD (scoresOf (weightedStrings AgentResponse.key_claims [opinionDup] [1])) "a" 0
        = 2
      ∧ (2 : ℚ) ≠ 1 := by
  have ha : normClaim "a" = "a" := by decide
  refine ⟨?_, by norm_num⟩
  norm_num [scoresOf, weightedStrings, opinionDup, ha, dictAdd, dictGetD]

/-- C4 amended: in key-finding consolidation each opinion adds its
weight to a normalized claim's accumulated score once per occurrence of
that claim in its claims list (so a duplicated claim is counted twice),
i.e. the score of `c` is the sum over opinions of weight times the
occurrence count of `c` among the opinion's normalized claims. -/
theorem claim_score_per_occurrence (rs : List AgentResponse) (ws : List ℚ)
    (c : String) :
    dictGetD (scoresOf (weightedStrings AgentResponse.key_claims rs ws)) c 0
      = ((rs.zip ws).map
          (fun p => p.2 * (((p.1.key_claims.map normClaim).count c : ℕ) : ℚ))).sum := by
  unfold scoresOf
  rw [dictGetD_scores_foldl]
  simp only [dictGetD, zero_add]
  unfold weightedStrings
  generalize rs.zip ws = l
  induction l with
  | nil => simp
  | cons p l ih =>
      simp only [List.flatMap_cons, List.map_append, List.sum_append, ih,
        List.map_cons, List.sum_cons, List.map_map]
      congr 1
      have := sum_if_eq_count c p.2 p.1.key_claims
      simpa [Function.comp] using this

/-- C7: the Consensus Engine is a pure function of its configuration and
input sequence - two invocations on the identical Opinion sequence yield
equal results - and the descending sorts used by the consolidation steps
break ties by original input order (a list of all-equal sort keys is
returned unchanged). -/
theorem consensus_deterministic (e : ConsensusEngine) (rs : List AgentResponse)
    (t : AnalysisType) :
    reachConsensus e rs t = reachConsensus e rs t ∧
      ∀ (xs : List (String × ℚ)) (c : ℚ),
        (∀ p ∈ xs, p.2 = c) → sortByDesc Prod.snd xs = xs := by
  refine ⟨rfl, ?_⟩
  intro xs c h
  exact sortByDesc_all_eq Prod.snd c xs h

theorem consensus_deterministic_witness :
    reachConsensus {} [] .what = reachConsensus {} [] .what ∧
      sortByDesc Prod.snd [(("a" : String), (1 : ℚ)), ("b", 1)] = [("a", 1), ("b", 1)] :=
  ⟨(consensus_deterministic {} [] .what).1,
    (consensus_deterministic {} [] .what).2 [("a", 1), ("b", 1)] 1 (by
      intro p hp
      rcases List.mem_cons.mp hp with rfl | hp
      · rfl
      rcases List.mem_cons.mp hp with rfl | hp
      · rfl
      · cases hp)⟩

/-- C6 counterexample: two surviving opinions produced by agents of the
same type (both "gpt-4o", each with normalized weight 1/2) collide in
the agent-votes dict comprehension; the later entry overwrites the
earlier and the vote values sum to 1/2, not 1. -/
theorem agent_votes_collision_sum :
    (reachConsensus {} [opinionSameType1, opinionSameType2] .general).agent_votes
        = [("gpt-4o", 1 / 2)]
      ∧ ((reachConsensus {} [opinionSameType1, opinionSameType2] .general).agent_votes.map
          Prod.snd).sum ≠ 1 := by
  have hv : (reachConsensus {} [opinionSameType1, opinionSameType2] .general).agent_votes
      = [("gpt-4o", 1 / 2)] := by
    norm_num [reachConsensus, surviving, agentVotes, calculateAgentWeights, rawWeight,
      opinionSameType1, opinionSameType2, min_def, dictSet, AgentType.value]
  refine ⟨hv, ?_⟩
  rw [hv]
  norm_num

/-- C6 amended: when the contributing (surviving) opinions carry
pairwise distinct agent-type labels, the agent-votes mapping pairs each
label with that opinion's normalized weight and its values sum to 1
(given nonnegative confidences and some nonzero raw weight); when two
contributing opinions share a label the later entry overwrites the
earlier one, so the mapping no longer assigns every contributing
opinion its weight and the values can sum to less than 1 (to 1/2 in the
counterexample above). -/
theorem agent_votes_distinct_sum_one (e : ConsensusEngine) (rs : List AgentResponse)
    (t : AnalysisType) (hne : rs ≠ [])
    (h0 : ∀ r ∈ rs, 0 ≤ r.confidence_score)
    (hnz : ∃ r ∈ surviving e rs, rawWeight r ≠ 0)
    (hnd : ((surviving e rs).map (fun r => r.agent_type.value)).Nodup) :
    (reachConsensus e rs t).agent_votes
        = ((surviving e rs).map (fun r => r.agent_type.value)).zip
            (calculateAgentWeights (surviving e rs))
      ∧ ((reachConsensus e rs t).agent_votes.map Prod.snd).sum = 1 := by
  have hproj : (reachConsensus e rs t).agent_votes
      = agentVotes (surviving e rs) (calculateAgentWeights (surviving e rs)) := by
    cases rs with
    | nil => exact absurd rfl hne
    | cons a l => rfl
  have hlen : (surviving e rs).length ≤ (calculateAgentWeights (surviving e rs)).length := by
    rw [calculateAgentWeights_length]
  have hzip := agentVotes_eq_zip (surviving e rs)
    (calculateAgentWeights (surviving e rs)) hlen hnd
  have h0s : ∀ r ∈ surviving e rs, 0 ≤ r.confidence_score :=
    fun r hr => h0 r (surviving_subset hr)
  have hsum1 := weights_sum_one h0s hnz
  constructor
  · rw [hproj, hzip]
  · rw [hproj, hzip]
    have hmap : ((((surviving e rs).map (fun r => r.agent_type.value)).zip
          (calculateAgentWeights (surviving e rs))).map Prod.snd)
        = calculateAgentWeights (surviving e rs) := by
      apply List.map_snd_zip
      rw [calculateAgentWeights_length, List.length_map]
    rw [hmap, hsum1]

theorem agent_votes_distinct_sum_one_witness :
    (reachConsensus {} [opinionA, opinionB] .what).agent_votes
        = ((surviving {} [opinionA, opinionB]).map (fun r => r.agent_type.value)).zip
            (calculateAgentWeights (surviving {} [opinionA, opinionB]))
      ∧ ((reachConsensus {} [opinionA, opinionB] .what).agent_votes.map Prod.snd).sum = 1 := by
  have hs : surviving {} [opinionA, opinionB] = [opinionA, opinionB] := by
    norm_num [surviving, opinionA, opinionB]
  refine agent_votes_distinct_sum_one {} [opinionA, opinionB] .what (by simp) ?_ ?_ ?_
  · intro r hr
    rcases List.mem_cons.mp hr with rfl | hr
    · norm_num [opinionA]
    rcases List.mem_cons.mp hr with rfl | hr
    · norm_num [opinionB]
    · cases hr
  · refine ⟨opinionA, ?_, ?_⟩
    · rw [hs]
      simp
    · norm_num [rawWeight, opinionA, min_def]
  · rw [hs]
    decide

/-- C3 (evaluation at the failing input): on the specification scenario
(two opinions with confidences 0.85 and 0.80 and claim lists
"Finding A"/"Finding B" and "Finding A"/"Finding C", engine parameters
0.5 and 0.6) the key findings are the lowercased normalized strings -
`_consolidate_findings` stores the already-normalized claim in
`claim_originals`, so the first-seen original casing "Finding A" is not
reported. -/
theorem key_findings_drop_original_casing :
    (reachConsensus scenarioEngine [opinionA, opinionB] .what).key_findings
        = ["finding a", "finding b", "finding c"]
      ∧ "Finding A" ∉
          (reachConsensus scenarioEngine [opinionA, opinionB] .what).key_findings := by
  have hA : normClaim "Finding A" = "finding a" := by decide
  have hB : normClaim "Finding B" = "finding b" := by decide
  have hC : normClaim "Finding C" = "finding c" := by decide
  have hkf : (reachConsensus scenarioEngine [opinionA, opinionB] .what).key_findings
      = ["finding a", "finding b", "finding c"] := by
    norm_num [reachConsensus, surviving, scenarioEngine, calculateAgentWeights, rawWeight,
      opinionA, opinionB, min_def, max_def, consolidateFindings, weightedStrings,
      hA, hB, hC, scoresOf, originalsOf, dictAdd, setIfAbsent, dictGetD, sortByDesc,
      insertDesc, listMax, List.filterMap_cons]
    decide
  refine ⟨hkf, ?_⟩
  rw [hkf]
  decide

/-- C8: failure isolation in the orchestrator fan-out. If exactly one
agent of the pool fails (raises, or completes only after the per-agent
timeout) while every other agent completes an opinion within the
timeout, one run still returns the opinions of the other N-1 agents in
pool order, the failing agent contributes no opinion, and the failure
diagnostics hold exactly one entry, carrying the failing agent's pool
index and captured exception. -/
theorem orchestrator_failure_isolation (timeout : ℚ)
    (pre post : List AgentBehavior) (b : AgentBehavior)
    (hpre : ∀ x ∈ pre, ∃ d r, x = AgentBehavior.completes d (some r) ∧ d ≤ timeout)
    (hpost : ∀ x ∈ post, ∃ d r, x = AgentBehavior.completes d (some r) ∧ d ≤ timeout)
    (hb : ∀ d v, b = AgentBehavior.completes d v → timeout < d) :
    (runAgents timeout (pre ++ b :: post)).1
        = pre.filterMap behaviorResponse ++ post.filterMap behaviorResponse
      ∧ (runAgents timeout (pre ++ b :: post)).1.length = pre.length + post.length
      ∧ (runAgents timeout (pre ++ b :: post)).2 = [(pre.length, failureMessage b)] := by
  obtain ⟨hc1, hl1, hf1⟩ := gather_all_success timeout pre hpre
  obtain ⟨hc2, hl2, hf2⟩ := gather_all_success timeout post hpost
  have hbrun : runAgentWithTimeout timeout b = RunResult.exn (failureMessage b) := by
    cases b with
    | completes d v => simp [runAgentWithTimeout, failureMessage, hb d v rfl]
    | raises e => rfl
  have hsplit : gatherResults timeout (pre ++ b :: post)
      = gatherResults timeout pre
          ++ runAgentWithTimeout timeout b :: gatherResults timeout post := by
    simp [gatherResults]
  have hglen : (gatherResults timeout pre).length = pre.length := by
    simp [gatherResults]
  have hops : (runAgents timeout (pre ++ b :: post)).1
      = pre.filterMap behaviorResponse ++ post.filterMap behaviorResponse := by
    show collectResponses (gatherResults timeout (pre ++ b :: post)) = _
    rw [hsplit, collectResponses_append, hc1, hbrun]
    simp [collectResponses, hc2]
  refine ⟨hops, ?_, ?_⟩
  · rw [hops]
    simp [hl1, hl2]
  · show collectFailures 0 (gatherResults timeout (pre ++ b :: post))
        = [(pre.length, failureMessage b)]
    rw [hsplit, collectFailures_append, hf1 0, hbrun]
    simp [collectFailures, hf2, hglen]

theorem orchestrator_failure_isolation_witness :
    (runAgents 10 ([AgentBehavior.completes 1 (some opinionOrch1)]
          ++ AgentBehavior.raises "boom" :: [AgentBehavior.completes 2 (some opinionOrch2)])).1
        = [AgentBehavior.completes 1 (some opinionOrch1)].filterMap behaviorResponse
            ++ [AgentBehavior.completes 2 (some opinionOrch2)].filterMap behaviorResponse
      ∧ (runAgents 10 ([AgentBehavior.completes 1 (some opinionOrch1)]
            ++ AgentBehavior.raises "boom"
              :: [AgentBehavior.completes 2 (some opinionOrch2)])).1.length
          = [AgentBehavior.completes 1 (some opinionOrch1)].length
            + [AgentBehavior.completes 2 (some opinionOrch2)].length
      ∧ (runAgents 10 ([AgentBehavior.completes 1 (some opinionOrch1)]
            ++ AgentBehavior.raises "boom"
              :: [AgentBehavior.completes 2 (some opinionOrch2)])).2
          = [([AgentBehavior.completes 1 (some opinionOrch1)].length,
              failureMessage (AgentBehavior.raises "boom"))] := by
  refine orchestrator_failure_isolation 10
    [AgentBehavior.completes 1 (some opinionOrch1)]
    [AgentBehavior.completes 2 (some opinionOrch2)]
    (AgentBehavior.raises "boom") ?_ ?_ ?_
  · intro x hx
    rw [List.mem_singleton] at hx
    subst hx
    exact ⟨1, opinionOrch1, rfl, by norm_num⟩
  · intro x hx
    rw [List.mem_singleton] at hx
    subst hx
    exact ⟨2, opinionOrch2, rfl, by norm_num⟩
  · intro d v h
    simp at h

end Claims

end ResearchPlatform
